import Mathlib

/-!
Verification development for the portfolio content pipeline:
the frontmatter parser (`src/assets/js/shared/markdown.js`) and the
catalog / link-store layer (`src/assets/js/shared/api.js`).

Strings are modelled by Lean `String` (a packed `List Char`); the
JavaScript functions are translated into executable Lean definitions
operating on the underlying character lists.
-/

namespace Portfolio

/-- Characters matched by the JavaScript regex class `\s` (and removed by
`String.prototype.trim`): the ECMAScript WhiteSpace and LineTerminator
code points. -/
def jsWS (c : Char) : Bool :=
  c = ' ' || c = '\t' || c = '\n' || c = '\r' || c = '\x0b' || c = '\x0c' ||
  c = ' ' || c = ' ' || (' ' ≤ c && c ≤ ' ') ||
  c = ' ' || c = ' ' || c = ' ' || c = ' ' ||
  c = '　' || c = '﻿'

/-- JavaScript `String.prototype.trim`: drop `jsWS` characters from both
ends. -/
def jsTrim (l : List Char) : List Char :=
  ((l.dropWhile jsWS).reverse.dropWhile jsWS).reverse

/-- JavaScript `String.prototype.split(sep)` for a one-character
separator: `"".split` gives `[""]`, and adjacent separators give empty
pieces. -/
def splitOnChar (sep : Char) : List Char → List (List Char)
  | [] => [[]]
  | c :: cs =>
    match splitOnChar sep cs with
    | [] => [[c]]
    | h :: t => if c = sep then [] :: h :: t else (c :: h) :: t

/-- All suffixes that start right after a newline character, ordered from
the LAST newline to the first.  This is the backtracking order in which a
greedy `\s*` followed by `\n` hands over the continuation point. -/
def nlStarts : List Char → List (List Char)
  | [] => []
  | c :: cs =>
    if c = '\n' then nlStarts cs ++ [cs] else nlStarts cs

/-- JavaScript `String.prototype.indexOf` for a one-character needle:
index of the first occurrence, if any. -/
def idxOf (target : Char) : List Char → Option Nat
  | [] => none
  | c :: cs => if c = target then some 0 else (idxOf target cs).map (· + 1)

/-! ### ECMAScript ToNumber on strings

`parseFrontmatter` coerces a value with `!isNaN(value) && value !== ''`
and `Number(value)`.  Both go through ToNumber applied to a string, which
(after trimming, already done by the caller) accepts a signed decimal
literal with optional fraction and exponent, `Infinity`, or a
`0x`/`0o`/`0b` radix literal.  `none` models NaN. -/

/-- Digit value in radix up to 16 (`0-9`, `a-f`, `A-F`). -/
def radixDigit (c : Char) : Option Nat :=
  if '0' ≤ c && c ≤ '9' then some (c.toNat - 48)
  else if 'a' ≤ c && c ≤ 'f' then some (c.toNat - 87)
  else if 'A' ≤ c && c ≤ 'F' then some (c.toNat - 55)
  else none

/-- Accumulate a radix-`b` digit string. -/
def parseRadixAux (b : Nat) : List Char → Nat → Option Nat
  | [], acc => some acc
  | c :: cs, acc =>
    match radixDigit c with
    | some d => if d < b then parseRadixAux b cs (acc * b + d) else none
    | none => none

/-- A non-empty all-digit string in radix `b`, as a natural number. -/
def parseRadixDigits (b : Nat) (l : List Char) : Option Nat :=
  if l.isEmpty then none else parseRadixAux b l 0

/-- A non-empty decimal digit string. -/
def parseDecDigits (l : List Char) : Option Nat := parseRadixDigits 10 l

/-- Split at the first character satisfying `p`, dropping that
character. -/
def splitFirst (p : Char → Bool) : List Char → Option (List Char × List Char)
  | [] => none
  | c :: cs =>
    if p c then some ([], cs)
    else (splitFirst p cs).map (fun pr => (c :: pr.1, pr.2))

/-- Unsigned decimal mantissa: `Digits`, `Digits.`, `Digits.Digits` or
`.Digits`, as an exact rational. -/
def parseUnsignedMantissa (l : List Char) : Option Rat :=
  match splitFirst (fun c => c = '.') l with
  | none => (parseDecDigits l).map (fun n => (n : Rat))
  | some (ip, fp) =>
    if ip.isEmpty && fp.isEmpty then none
    else if ip.isEmpty then
      (parseDecDigits fp).map (fun f => (f : Rat) / (10 : Rat) ^ fp.length)
    else if fp.isEmpty then (parseDecDigits ip).map (fun n => (n : Rat))
    else
      match parseDecDigits ip, parseDecDigits fp with
      | some n, some f => some ((n : Rat) + (f : Rat) / (10 : Rat) ^ fp.length)
      | _, _ => none

/-- Optionally signed non-empty decimal digit string:
`(isNegative, magnitude)`. -/
def parseSignedNat : List Char → Option (Bool × Nat)
  | '+' :: cs => (parseDecDigits cs).map (fun n => (false, n))
  | '-' :: cs => (parseDecDigits cs).map (fun n => (true, n))
  | cs => (parseDecDigits cs).map (fun n => (false, n))

/-- Scale a mantissa by a signed power of ten. -/
def applyExp (q : Rat) (neg : Bool) (e : Nat) : Rat :=
  if neg then q / (10 : Rat) ^ e else q * (10 : Rat) ^ e

/-- Unsigned decimal literal with optional `e`/`E` exponent part. -/
def parseUnsignedDec (l : List Char) : Option Rat :=
  match splitFirst (fun c => c = 'e' || c = 'E') l with
  | none => parseUnsignedMantissa l
  | some (m, ex) =>
    match parseUnsignedMantissa m, parseSignedNat ex with
    | some q, some (neg, e) => some (applyExp q neg e)
    | _, _ => none

/-- Signed decimal literal. -/
def parseSignedDec : List Char → Option Rat
  | '+' :: cs => parseUnsignedDec cs
  | '-' :: cs => (parseUnsignedDec cs).map Neg.neg
  | l => parseUnsignedDec l

/-- A JavaScript number that a frontmatter value can coerce to: a finite
rational or a signed infinity (NaN never reaches `metadata` because the
`!isNaN` guard filters it). -/
inductive JSNum where
  | fin (q : Rat)
  | posInf
  | negInf
deriving DecidableEq, Repr

/-- `0x` / `0o` / `0b` radix prefix of a non-decimal numeric literal. -/
def radixPrefix : List Char → Option (Nat × List Char)
  | '0' :: c :: rest =>
    if c = 'x' || c = 'X' then some (16, rest)
    else if c = 'o' || c = 'O' then some (8, rest)
    else if c = 'b' || c = 'B' then some (2, rest)
    else none
  | _ => none

/-- ECMAScript ToNumber on an already-trimmed string; `none` is NaN.
The empty string converts to `0` (the parser separately requires
`value !== ''` before treating a value as numeric). -/
def jsToNumber (l : List Char) : Option JSNum :=
  if l.isEmpty then some (.fin 0)
  else if l = "Infinity".data || l = "+Infinity".data then some .posInf
  else if l = "-Infinity".data then some .negInf
  else
    match radixPrefix l with
    | some (b, rest) => (parseRadixDigits b rest).map (fun n => .fin (n : Rat))
    | none => (parseSignedDec l).map .fin

/-- A value stored in the frontmatter metadata mapping: boolean, number,
comma-split string list, or raw string. -/
inductive JSValue where
  | str (s : String)
  | num (n : JSNum)
  | bool (b : Bool)
  | list (l : List String)
deriving DecidableEq, Repr

/-- The value-coercion cascade of `parseFrontmatter`
(`markdown.js` lines 60-72), applied to the trimmed value string:
`'true'`/`'false'` become booleans, else a numeric-parseable non-empty
string becomes a number, else a string containing a comma is split on
commas and each piece trimmed, else the raw string is kept. -/
def coerceValue (v : String) : JSValue :=
  if v = "true" then .bool true
  else if v = "false" then .bool false
  else if (jsToNumber v.data).isSome && v ≠ "" then
    .num ((jsToNumber v.data).getD (.fin 0))
  else if v.data.contains ',' then
    .list ((splitOnChar ',' v.data).map (fun piece => (⟨jsTrim piece⟩ : String)))
  else .str v

/-! ### The frontmatter regex

`markdown.js` line 30 matches
`/^---\s*\n([\s\S]*?)\n---\s*\n([\s\S]*)$/`.
The matcher below reproduces the backtracking search order of that
regex: the opening `\s*\n` hands over continuation points at each
newline of the maximal whitespace run, latest first (greedy `\s*`);
group 1 is lazy, so the closing `\n---\s*\n` is searched left to right;
the closing `\s*\n` again consumes up to the last newline of the
whitespace run following `---`; group 2 takes the rest. -/

/-- Try to match the closing `\n---\s*\n` at exactly this position;
on success return the suffix after the final consumed newline
(the start of group 2). -/
def closingAt : List Char → Option (List Char)
  | '\n' :: '-' :: '-' :: '-' :: rest =>
    let w2 := rest.takeWhile jsWS
    let r2 := rest.dropWhile jsWS
    match nlStarts w2 with
    | s :: _ => some (s ++ r2)
    | [] => none
  | _ => none

/-- Lazy search for the closing delimiter: the first position where
`closingAt` succeeds wins; the skipped characters form group 1. -/
def closingScan : List Char → Option (List Char × List Char)
  | [] => none
  | c :: cs =>
    match closingAt (c :: cs) with
    | some g2 => some ([], g2)
    | none => (closingScan cs).map (fun pr => (c :: pr.1, pr.2))

/-- Try each continuation point of the opening `---\s*\n` (latest
newline first) until the closing scan succeeds. -/
def tryOpenings (r : List Char) : List (List Char) → Option (List Char × List Char)
  | [] => none
  | s :: more =>
    match closingScan (s ++ r) with
    | some pr => some pr
    | none => tryOpenings r more

/-- The whole-regex match: `some (group1, group2)` when the frontmatter
pattern matches, `none` otherwise. -/
def fmMatch : List Char → Option (List Char × List Char)
  | '-' :: '-' :: '-' :: rest =>
    tryOpenings (rest.dropWhile jsWS) (nlStarts (rest.takeWhile jsWS))
  | _ => none

/-- One line of the metadata section (`markdown.js` lines 46-75):
skip blank lines and `#` comments, skip lines without a colon, otherwise
produce the trimmed key and the coerced trimmed value. -/
def parseLine (line : List Char) : Option (String × JSValue) :=
  let t := jsTrim line
  if t.isEmpty then none
  else if t.head? = some '#' then none
  else
    match idxOf ':' line with
    | none => none
    | some i =>
      let key : String := ⟨jsTrim (line.take i)⟩
      let value : String := ⟨jsTrim (line.drop (i + 1))⟩
      some (key, coerceValue value)

/-- All key/value bindings of the metadata section, in line order.
JavaScript object assignment overwrites, so a lookup must take the LAST
binding for a key (see `getMeta`). -/
def parseMeta (lines : List (List Char)) : List (String × JSValue) :=
  lines.filterMap parseLine

/-- Result of `parseFrontmatter`: the metadata bindings and the body. -/
structure FMResult where
  metadata : List (String × JSValue)
  body : String
deriving DecidableEq, Repr

/-- `parseFrontmatter` (`markdown.js` lines 28-80): if the delimiter
regex does not match, return empty metadata and the input unchanged;
otherwise split group 1 on newlines, parse each line, and return the
trimmed group 2 as the body. -/
def parseFrontmatter (content : String) : FMResult :=
  match fmMatch content.data with
  | none => { metadata := [], body := content }
  | some (fmText, bodyRaw) =>
    { metadata := parseMeta (splitOnChar '\n' fmText)
      body := ⟨jsTrim bodyRaw⟩ }

/-! ### Project loader (`markdown.js` lines 96-127)

`fetch` and the try/catch are modelled by an environment mapping a URL to
an outcome: an ok response carrying the body text, a non-ok response, or
a thrown error (network failure, or an exception while reading the
body).  `parseFrontmatter` itself is a total Lean function, so the only
exception sources are the fetch and the body read, exactly the cases the
`catch` converts to `null`. -/

/-- Outcome of fetching a text resource. -/
inductive FetchOutcome where
  | ok (body : String)
  | notOk
  | err
deriving DecidableEq, Repr

/-- The URL template of `loadProjectFromMarkdown`. -/
def projectUrl (projectId : String) : String :=
  "/assets/projects/" ++ projectId ++ "/project.md"

/-- JavaScript truthiness of a metadata value (used by the `||` field
defaults): empty string, `0` and `false` are falsy; arrays are always
truthy. -/
def truthy : JSValue → Bool
  | .str s => s ≠ ""
  | .num n =>
    match n with
    | .fin q => q ≠ 0
    | _ => true
  | .bool b => b
  | .list _ => true

/-- `metadata.key || fallback`: the stored value if present and truthy,
else the fallback (an absent key is `undefined`, which is falsy). -/
def jsOr (v : Option JSValue) (d : JSValue) : JSValue :=
  match v with
  | some x => if truthy x then x else d
  | none => d

/-- Property access on the metadata object: JavaScript assignment
overwrites, so the LAST binding for a key wins. -/
def getMeta (m : List (String × JSValue)) (k : String) : Option JSValue :=
  (m.reverse.find? (fun kv => kv.1 == k)).map (fun kv => kv.2)

/-- The project record built by `loadProjectFromMarkdown`.  Field types
follow the JavaScript: an `||` default keeps whatever truthy value the
metadata held, so those fields are `JSValue`; `tags` is forced to an
array by the `Array.isArray` check; `images` is always empty. -/
structure Project where
  id : JSValue
  title : JSValue
  year : JSValue
  link : JSValue
  tags : List String
  featured : JSValue
  description : String
  thumbnail : String
  images : List String
deriving DecidableEq, Repr

/-- `loadProjectFromMarkdown` (`markdown.js` lines 96-127): fetch the
project markdown; a non-ok response or a thrown error yields `none`; on
success parse the frontmatter and build the record with the `||`
defaults.  `currentYear` stands for `new Date().getFullYear()`. -/
def loadProjectFromMarkdown (env : String → FetchOutcome) (currentYear : Int)
    (projectId : String) : Option Project :=
  match env (projectUrl projectId) with
  | .notOk => none
  | .err => none
  | .ok content =>
    let r := parseFrontmatter content
    let md := r.metadata
    some
      { id := jsOr (getMeta md "id") (.str projectId)
        title := jsOr (getMeta md "title") (.str "Untitled Project")
        year := jsOr (getMeta md "year") (.num (.fin currentYear))
        link := jsOr (getMeta md "link") (.str "")
        tags :=
          match getMeta md "tags" with
          | some (.list l) => l
          | _ => []
        featured := jsOr (getMeta md "featured") (.bool false)
        description := r.body
        thumbnail := "/assets/projects/" ++ projectId ++ "/1.webp"
        images := [] }

/-- `getProjectFolders` (`markdown.js` lines 141-147): the hardcoded
folder enumeration. -/
def getProjectFolders : List String :=
  ["adbison", "instaforex", "safetyfirst"]

/-! ### Project catalog (`api.js` lines 33-69) -/

/-- The `metadata` part of the catalog object. -/
structure CatalogMeta where
  version : String
  lastUpdated : String
  source : String
deriving DecidableEq, Repr

/-- The catalog object built by `loadProjects`. -/
structure Catalog where
  projects : List Project
  metadata : CatalogMeta
deriving DecidableEq, Repr

/-- The pure build inside `loadProjects`: one loader call per folder,
`null` results filtered out, plus the metadata block.  `load` abstracts
`loadProjectFromMarkdown` applied to the ambient fetch environment, and
`ts` stands for `new Date().toISOString()`. -/
def buildCatalog (load : String → Option Project) (ts : String) : Catalog :=
  let projects := getProjectFolders.map load
  let validProjects := projects.filterMap id
  { projects := validProjects
    metadata := { version := "2.0.0", lastUpdated := ts, source := "markdown" } }

/-- The URLs fetched by one catalog build (one per folder, in
enumeration order): every loader call fetches its URL whatever the
outcome. -/
def buildUrls : List String := getProjectFolders.map projectUrl

/-- The module-level mutable state of `api.js` relevant to
`loadProjects`: the `cachedProjects` slot, plus a log of the URLs
fetched so far (to count network activity). -/
structure ApiState where
  cachedProjects : Option Catalog
  fetchLog : List String
deriving DecidableEq, Repr

/-- The synchronous cache check at the top of `loadProjects`:
`if (cachedProjects) return cachedProjects`.  True when the call misses
and will proceed to build. -/
def checkMiss (st : ApiState) : Bool := st.cachedProjects.isNone

/-- The build section of `loadProjects`: perform the fetches, assemble
the catalog, write the cache slot, return the catalog. -/
def buildPhase (load : String → Option Project) (ts : String)
    (st : ApiState) : Catalog × ApiState :=
  let d := buildCatalog load ts
  (d, { cachedProjects := some d, fetchLog := st.fetchLog ++ buildUrls })

/-- One complete (non-overlapped) call of `loadProjects`: return the
cached catalog if present, else build, cache and return. -/
def loadProjectsCall (load : String → Option Project) (ts : String)
    (st : ApiState) : Catalog × ApiState :=
  match st.cachedProjects with
  | some d => (d, st)
  | none => buildPhase load ts st

/-- Two calls of `loadProjects` that overlap on the event loop: the
cache check is synchronous but the build awaits its fetches, so a second
call's check can run after the first call's check and before the first
call's cache write.  Schedule executed here: call 1 checks, call 2
checks, call 1 builds and writes, call 2 builds and writes. -/
def overlappedCalls (load : String → Option Project) (ts : String)
    (st0 : ApiState) : ApiState :=
  let miss1 := checkMiss st0
  let miss2 := checkMiss st0
  let st1 := if miss1 then (buildPhase load ts st0).2 else st0
  if miss2 then (buildPhase load ts st1).2 else st1

/-! ### Tag filtering (`api.js` lines 95-105) -/

/-- Model of JavaScript `String.prototype.toLowerCase` (the tags in this
repository are ASCII, where the two agree). -/
def jsToLowerCase (s : String) : String := ⟨s.data.map Char.toLower⟩

/-- `filterProjects` (`api.js` lines 95-105) applied to a resolved
catalog.  The tag argument is `none` when the caller passes no tag
(`undefined`), and `!tag` is also true for the empty string; otherwise
keep the projects whose tag sequence contains a case-insensitive match. -/
def filterProjects (data : Catalog) (tag : Option String) : List Project :=
  match tag with
  | none => data.projects
  | some t =>
    if t = "" then data.projects
    else
      data.projects.filter (fun project =>
        project.tags.any (fun s => jsToLowerCase s == jsToLowerCase t))

/-! ### Link store (`api.js` lines 129-151) -/

/-- A parsed JSON document (the shape `response.json()` produces). -/
inductive Json where
  | null
  | bool (b : Bool)
  | num (q : Rat)
  | str (s : String)
  | arr (elems : List Json)
  | obj (fields : List (String × Json))

/-- The fallback document returned by `loadLinks` on failure:
`{ social: {}, metadata: {} }`. -/
def emptyLinksDoc : Json := .obj [("social", .obj []), ("metadata", .obj [])]

/-- Outcome of fetching and JSON-parsing the links resource: an ok
response with the parsed document, a non-ok response (the code then
throws and catches an `HTTP error!`), or a thrown error (network failure
or JSON parse failure). -/
inductive JsonFetch where
  | ok (d : Json)
  | notOk
  | err

/-- JavaScript truthiness of a parsed JSON value: `null`, `false`, `0`
and `""` are falsy; every object and array (even empty) is truthy. -/
def jsonTruthy : Json → Bool
  | .null => false
  | .bool b => b
  | .num q => q ≠ 0
  | .str s => s ≠ ""
  | .arr _ => true
  | .obj _ => true

/-- The module-level state relevant to `loadLinks`: the `cachedLinks`
variable (initialized to `null` by `let cachedLinks = null`, hence a
`Json`, not an option) and the number of fetches of `/data/links.json`
performed so far. -/
structure LinksState where
  cachedLinks : Json
  fetchCount : Nat

/-- One call of `loadLinks` (`api.js` lines 129-151): the cache check
`if (cachedLinks) return cachedLinks` is a TRUTHINESS test of the
variable, so it hits only when the cached document is truthy; otherwise
fetch — on success assign the parsed data to `cachedLinks` and return
it, on a non-ok response or a thrown error return
`{social: {}, metadata: {}}` WITHOUT touching the cache variable. -/
def loadLinksCall (env : JsonFetch) (st : LinksState) : Json × LinksState :=
  if jsonTruthy st.cachedLinks then (st.cachedLinks, st)
  else
    match env with
    | .ok d => (d, { cachedLinks := d, fetchCount := st.fetchCount + 1 })
    | .notOk => (emptyLinksDoc, { st with fetchCount := st.fetchCount + 1 })
    | .err => (emptyLinksDoc, { st with fetchCount := st.fetchCount + 1 })

/-! ### Helper lemmas about the regex matcher -/

/-- Decides whether the closing `\n---\s*\n` pattern occurs anywhere in
the list. -/
def hasClosing : List Char → Bool
  | [] => false
  | c :: cs => (closingAt (c :: cs)).isSome || hasClosing cs

theorem hasClosing_append_false (t l : List Char)
    (h : hasClosing (t ++ l) = false) : hasClosing l = false := by
  induction t with
  | nil => simpa using h
  | cons c t ih =>
    rw [List.cons_append, hasClosing, Bool.or_eq_false_iff] at h
    exact ih h.2

theorem closingScan_eq_none (l : List Char) (h : hasClosing l = false) :
    closingScan l = none := by
  induction l with
  | nil => rfl
  | cons c cs ih =>
    rw [hasClosing, Bool.or_eq_false_iff] at h
    rw [closingScan]
    cases hca : closingAt (c :: cs) with
    | some g2 => rw [hca] at h; simp at h
    | none => rw [ih h.2]; rfl

theorem nlStarts_suffix {l s : List Char} (h : s ∈ nlStarts l) : s <:+ l := by
  induction l with
  | nil => simp [nlStarts] at h
  | cons c cs ih =>
    rw [nlStarts] at h
    by_cases hc : c = '\n'
    · rw [if_pos hc] at h
      rcases List.mem_append.mp h with h1 | h2
      · exact (ih h1).trans (List.suffix_cons c cs)
      · simp only [List.mem_singleton] at h2
        rw [h2]
        exact List.suffix_cons c cs
    · rw [if_neg hc] at h
      exact (ih h).trans (List.suffix_cons c cs)

theorem tryOpenings_eq_none (r : List Char) (cands : List (List Char))
    (h : ∀ s ∈ cands, closingScan (s ++ r) = none) :
    tryOpenings r cands = none := by
  induction cands with
  | nil => rfl
  | cons s more ih =>
    rw [tryOpenings, h s (by simp)]
    exact ih (fun x hx => h x (List.mem_cons_of_mem s hx))

theorem fmMatch_dash (rest : List Char) :
    fmMatch ('-' :: '-' :: '-' :: rest) =
      tryOpenings (rest.dropWhile jsWS) (nlStarts (rest.takeWhile jsWS)) := by
  simp [fmMatch]

/-- If the closing pattern occurs nowhere after the three dashes, the
whole regex fails, whatever continuation point the opening `\s*\n`
hands over. -/
theorem fmMatch_none_of_no_closing (rest : List Char)
    (h : hasClosing rest = false) :
    fmMatch ('-' :: '-' :: '-' :: rest) = none := by
  rw [fmMatch_dash]
  apply tryOpenings_eq_none
  intro s hs
  apply closingScan_eq_none
  obtain ⟨t, ht⟩ := nlStarts_suffix hs
  refine hasClosing_append_false t _ ?_
  have hsplit : t ++ (s ++ rest.dropWhile jsWS) = rest := by
    rw [← List.append_assoc, ht, List.takeWhile_append_dropWhile]
  rw [hsplit]
  exact h

/-! ### Claims C3, C10, C1, C2 -/

/-- C3: `parseFrontmatter` is total by construction (a Lean function
into `FMResult`, with no exceptional exit), and on any input whose
character sequence does not match the leading-delimiter regex it
returns the empty metadata mapping together with the input string
unchanged (the body is NOT trimmed in this branch). -/
theorem parseFrontmatter_no_match_fallback (content : String)
    (h : fmMatch content.data = none) :
    parseFrontmatter content = { metadata := [], body := content } := by
  unfold parseFrontmatter
  rw [h]

theorem parseFrontmatter_no_match_fallback_witness :
    fmMatch "hello world".data = none ∧
    parseFrontmatter "hello world" = { metadata := [], body := "hello world" } :=
  ⟨by decide, parseFrontmatter_no_match_fallback "hello world" (by decide)⟩

/-- C10: a document that opens with the delimiter line and ends
immediately after the closing `---` with no trailing newline is not
recognized as frontmatter: the regex requires `\n` after the closing
`---\s*`, so (provided the middle section contains no other closing
delimiter occurrence, which is what `hasClosing ... = false` states)
the match fails and the parser returns empty metadata with the entire
input as the body. -/
theorem closing_delimiter_needs_newline (content : String) (mid : List Char)
    (hc : content.data = '-' :: '-' :: '-' :: ('\n' :: (mid ++ '\n' :: "---".data)))
    (h : hasClosing ('\n' :: (mid ++ '\n' :: "---".data)) = false) :
    parseFrontmatter content = { metadata := [], body := content } := by
  unfold parseFrontmatter
  rw [hc, fmMatch_none_of_no_closing _ h]

theorem closing_delimiter_needs_newline_witness :
    parseFrontmatter "---\nkey: value\n---" =
      { metadata := [], body := "---\nkey: value\n---" } :=
  closing_delimiter_needs_newline "---\nkey: value\n---" "key: value".data
    (by decide) (by decide)

/-- The end-to-end example document of the specification. -/
def demoDoc : String :=
  "---\nid: demo\ntitle: Demo Project\nyear: 2024\ntags: A, B\nfeatured: true\n---\nBody text."

/-- A fetch environment that serves `demoDoc` for the demo project. -/
def demoEnv : String → FetchOutcome := fun url =>
  if url = projectUrl "demo" then .ok demoDoc else .notOk

/-- C1: for any environment that serves the demo document and any
current year, the loader composed with the frontmatter parser produces
exactly the record `{id: "demo", title: "Demo Project", year: 2024,
tags: ["A","B"], featured: true, description: "Body text."}` (plus the
defaulted `link` and the derived thumbnail and empty image list). -/
theorem loader_demo_document (env : String → FetchOutcome) (y : Int)
    (h : env (projectUrl "demo") = .ok demoDoc) :
    loadProjectFromMarkdown env y "demo" = some
      { id := .str "demo"
        title := .str "Demo Project"
        year := .num (.fin 2024)
        link := .str ""
        tags := ["A", "B"]
        featured := .bool true
        description := "Body text."
        thumbnail := "/assets/projects/demo/1.webp"
        images := [] } := by
  unfold loadProjectFromMarkdown
  rw [h]
  rfl

theorem loader_demo_document_witness :
    demoEnv (projectUrl "demo") = .ok demoDoc ∧
    loadProjectFromMarkdown demoEnv 2030 "demo" = some
      { id := .str "demo"
        title := .str "Demo Project"
        year := .num (.fin 2024)
        link := .str ""
        tags := ["A", "B"]
        featured := .bool true
        description := "Body text."
        thumbnail := "/assets/projects/demo/1.webp"
        images := [] } :=
  ⟨by decide, loader_demo_document demoEnv 2030 (by decide)⟩

/-- C2: the value-coercion cascade is a total function (it is a Lean
function on all of `String`) applied in the fixed order
boolean / number / comma list / raw string: the three specification
examples evaluate as claimed, and any trimmed value that is not
`true`/`false`, not numeric-parseable, and comma-free is kept as the
raw string. -/
theorem coercion_order_and_examples :
    coerceValue "true" = .bool true ∧
    coerceValue "false" = .bool false ∧
    coerceValue "UI/UX, Web App" = .list ["UI/UX", "Web App"] ∧
    coerceValue "2025" = .num (.fin 2025) ∧
    ∀ v : String, v ≠ "true" → v ≠ "false" →
      (jsToNumber v.data).isSome = false →
      v.data.contains ',' = false →
      coerceValue v = .str v := by
  refine ⟨by decide, by decide, by decide, by decide, ?_⟩
  intro v h1 h2 h3 h4
  have h4m : ',' ∉ v.data := by simpa using h4
  simp [coerceValue, h1, h2, h3, h4m]

theorem coercion_order_and_examples_witness :
    coerceValue "hello" = .str "hello" :=
  coercion_order_and_examples.2.2.2.2 "hello" (by decide) (by decide)
    (by decide) (by decide)

/-! ### Claims C4, C5, C6 -/

/-- C4: `loadProjectFromMarkdown` either returns a fully populated
record (whenever the fetch responds ok) or `none`: a non-ok response
and a thrown error are both converted to `none`, and the function is
total (it is a Lean function into `Option Project`, so no exception can
reach the caller). -/
theorem loader_error_handling (env : String → FetchOutcome) (y : Int)
    (pid : String) :
    (env (projectUrl pid) = .notOk → loadProjectFromMarkdown env y pid = none) ∧
    (env (projectUrl pid) = .err → loadProjectFromMarkdown env y pid = none) ∧
    (∀ content, env (projectUrl pid) = .ok content →
      ∃ p, loadProjectFromMarkdown env y pid = some p) := by
  refine ⟨?_, ?_, ?_⟩
  · intro h
    simp [loadProjectFromMarkdown, h]
  · intro h
    simp [loadProjectFromMarkdown, h]
  · intro content h
    unfold loadProjectFromMarkdown
    rw [h]
    exact ⟨_, rfl⟩

/-- A fetch environment in which every resource is missing. -/
def absentEnv : String → FetchOutcome := fun _ => .notOk

theorem loader_error_handling_witness :
    loadProjectFromMarkdown absentEnv 0 "x" = none :=
  (loader_error_handling absentEnv 0 "x").1 rfl

/-- C5: the catalog built by `loadProjects` contains exactly the
successful records in folder-enumeration order (an absent result
removes only its own entry), when every load fails the projects
sequence is empty rather than an error, and in the specification's
three-identifier scenario with the middle load failing the catalog is
exactly the two surviving records in order. -/
theorem catalog_partial_failure (ts : String) :
    (∀ load : String → Option Project,
      (buildCatalog load ts).projects = getProjectFolders.filterMap load) ∧
    (∀ load : String → Option Project,
      (∀ f ∈ getProjectFolders, load f = none) →
      (buildCatalog load ts).projects = []) ∧
    (∀ p1 p3 : Project,
      (buildCatalog
        (fun f => if f = "adbison" then some p1
          else if f = "safetyfirst" then some p3 else none) ts).projects
        = [p1, p3]) := by
  refine ⟨?_, ?_, ?_⟩
  · intro load
    simp [buildCatalog, List.filterMap_map, Function.comp]
  · intro load h
    have h1 := h "adbison" (by simp [getProjectFolders])
    have h2 := h "instaforex" (by simp [getProjectFolders])
    have h3 := h "safetyfirst" (by simp [getProjectFolders])
    simp [buildCatalog, getProjectFolders, h1, h2, h3]
  · intro p1 p3
    simp [buildCatalog, getProjectFolders]

theorem catalog_partial_failure_witness :
    (buildCatalog (fun _ => none) "t").projects = [] :=
  (catalog_partial_failure "t").2.1 (fun _ => none) (fun _ _ => rfl)

theorem jsToLowerCase_eq_empty_iff (s : String) :
    jsToLowerCase s = "" ↔ s = "" := by
  constructor
  · intro h
    have hd : s.data.map Char.toLower = [] := congrArg String.data h
    have : s.data = [] := List.map_eq_nil_iff.mp hd
    cases s with
    | mk d => simp at this; rw [this]
  · intro h
    rw [h]
    rfl

/-- C6: `filterProjects` with an absent or empty tag returns the full
unfiltered project sequence, and filtering is case-insensitive: two
tags with the same lower-casing produce identical result sequences on
every catalog. -/
theorem filterProjects_tag_cases (data : Catalog) :
    filterProjects data none = data.projects ∧
    filterProjects data (some "") = data.projects ∧
    ∀ t1 t2 : String, jsToLowerCase t1 = jsToLowerCase t2 →
      filterProjects data (some t1) = filterProjects data (some t2) := by
  refine ⟨rfl, rfl, ?_⟩
  intro t1 t2 h
  by_cases h1 : t1 = ""
  · have h2 : t2 = "" := by
      rw [← jsToLowerCase_eq_empty_iff, ← h, h1]
      rfl
    rw [h1, h2]
  · have h2 : t2 ≠ "" := by
      intro h2
      exact h1 ((jsToLowerCase_eq_empty_iff t1).mp
        (by rw [h, h2]; rfl))
    simp only [filterProjects, if_neg h1, if_neg h2, h]

/-- A project carrying the specification's example tags. -/
def uixProject : Project :=
  { id := .str "uix"
    title := .str "UIX"
    year := .num (.fin 2024)
    link := .str ""
    tags := ["UI/UX", "Web App"]
    featured := .bool false
    description := ""
    thumbnail := ""
    images := [] }

/-- A one-project catalog used to instantiate the tag-filter claim. -/
def uixCatalog : Catalog :=
  { projects := [uixProject]
    metadata := { version := "2.0.0", lastUpdated := "t", source := "markdown" } }

theorem filterProjects_tag_cases_witness :
    filterProjects uixCatalog (some "UI/UX") =
      filterProjects uixCatalog (some "ui/ux") :=
  (filterProjects_tag_cases uixCatalog).2.2 "UI/UX" "ui/ux" (by decide)

/-! ### Claim C9: single tags are dropped -/

theorem coerce_no_comma_not_list (v : String)
    (hv : v.data.contains ',' = false) :
    ∀ l, coerceValue v ≠ JSValue.list l := by
  intro l
  unfold coerceValue
  split
  · simp
  · split
    · simp
    · split
      · simp
      · split
        · simp_all
        · simp

theorem getMeta_mem (m : List (String × JSValue)) (k : String) (val : JSValue)
    (h : getMeta m k = some val) : (k, val) ∈ m := by
  unfold getMeta at h
  rcases Option.map_eq_some'.mp h with ⟨kv, hfind, hval⟩
  have hmem : kv ∈ m.reverse := List.mem_of_find?_eq_some hfind
  have hk : kv.1 = k := by
    have := List.find?_some hfind
    simpa using this
  rw [List.mem_reverse] at hmem
  have hkv : kv = (k, val) := by
    cases kv
    simp at hk hval
    simp [hk, hval]
  rw [← hkv]
  exact hmem

theorem parseLine_val (line : List Char) (k : String) (val : JSValue)
    (h : parseLine line = some (k, val)) :
    ∃ raw : String, val = coerceValue raw := by
  unfold parseLine at h
  by_cases h1 : (jsTrim line).isEmpty
  · simp [h1] at h
  · by_cases h2 : (jsTrim line).head? = some '#'
    · simp [h1, h2] at h
    · cases hidx : idxOf ':' line with
      | none => simp [h1, h2, hidx] at h
      | some i =>
        simp only [h1, h2, hidx, if_neg, if_false, Bool.false_eq_true,
          Option.some_inj, Prod.mk.injEq] at h
        exact ⟨⟨jsTrim (line.drop (i + 1))⟩, h.2.symm⟩

/-- Every value stored in a parsed metadata mapping is the coercion of
some raw string (namely the trimmed text after the colon of its
line). -/
theorem parseFrontmatter_val (content : String) (k : String) (val : JSValue)
    (h : getMeta (parseFrontmatter content).metadata k = some val) :
    ∃ raw : String, val = coerceValue raw := by
  unfold parseFrontmatter at h
  split at h
  · simp [getMeta] at h
  · have hmem := getMeta_mem _ _ _ h
    simp only [parseMeta, List.mem_filterMap] at hmem
    obtain ⟨line, _, hline⟩ := hmem
    exact parseLine_val _ _ _ hline

/-- A document whose tags line holds a single comma-free word. -/
def singleTagDoc : String := "---\ntags: Design\n---\nBody."

/-- A document whose tags line holds a comma-free numeric value. -/
def numericTagDoc : String := "---\ntags: 2024\n---\nBody."

/-- Environment serving `singleTagDoc` everywhere. -/
def singleTagEnv : String → FetchOutcome := fun _ => .ok singleTagDoc

/-- Environment serving `numericTagDoc` everywhere. -/
def numericTagEnv : String → FetchOutcome := fun _ => .ok numericTagDoc

/-- C9: a tags value with no comma never coerces to a list, so the
loader's `Array.isArray` check drops it and the record's tags sequence
is empty — the concrete documents `tags: Design` and `tags: 2024` show
a single tag silently dropped.  Conversely, a loaded record with a
non-empty tags sequence got it from a stored list value, and a list
value only arises as the coercion of a raw string that contains a
comma. -/
theorem tags_require_comma :
    (∀ v : String, v.data.contains ',' = false →
      ∀ l, coerceValue v ≠ JSValue.list l) ∧
    ((loadProjectFromMarkdown singleTagEnv 2030 "p").map Project.tags
      = some []) ∧
    ((loadProjectFromMarkdown numericTagEnv 2030 "p").map Project.tags
      = some []) ∧
    (∀ (env : String → FetchOutcome) (y : Int) (pid content : String)
        (p : Project),
      env (projectUrl pid) = .ok content →
      loadProjectFromMarkdown env y pid = some p →
      p.tags ≠ [] →
      ∃ l, getMeta (parseFrontmatter content).metadata "tags" =
          some (JSValue.list l) ∧
        ∃ raw : String, coerceValue raw = JSValue.list l ∧
          raw.data.contains ',' = true) := by
  refine ⟨coerce_no_comma_not_list, by decide, by decide, ?_⟩
  intro env y pid content p hfetch hload hne
  unfold loadProjectFromMarkdown at hload
  rw [hfetch, Option.some_inj] at hload
  have htags : p.tags =
      (match getMeta (parseFrontmatter content).metadata "tags" with
        | some (JSValue.list l) => l
        | _ => []) := by
    rw [← hload]
  cases hm : getMeta (parseFrontmatter content).metadata "tags" with
  | none =>
    rw [hm] at htags
    simp at htags
    exact absurd htags hne
  | some v =>
    cases v with
    | list l =>
      obtain ⟨raw, hraw⟩ := parseFrontmatter_val content "tags" (JSValue.list l) hm
      cases hcc : raw.data.contains ',' with
      | false => exact absurd hraw.symm (coerce_no_comma_not_list raw hcc l)
      | true => exact ⟨l, rfl, raw, hraw.symm, hcc⟩
    | str s =>
      rw [hm] at htags
      simp at htags
      exact absurd htags hne
    | num n =>
      rw [hm] at htags
      simp at htags
      exact absurd htags hne
    | bool b =>
      rw [hm] at htags
      simp at htags
      exact absurd htags hne

theorem tags_require_comma_witness :
    coerceValue "Design" ≠ JSValue.list [] :=
  tags_require_comma.1 "Design" (by decide) []

/-! ### Claim C7: catalog memoization -/

/-- C7 counterexample: `loadProjects` caches the RESOLVED catalog, not
the in-flight promise, and its cache check is synchronous while the
build awaits its fetches.  On the schedule in `overlappedCalls` — both
calls miss before either build settles, a schedule the event loop
permits — the markdown of `adbison` is fetched twice, refuting the
claim that at most one build is in flight and that only one underlying
fetch occurs per identifier across any number of calls. -/
theorem loadProjects_single_flight_refuted :
    ((overlappedCalls (fun _ => none) "t"
        { cachedProjects := none, fetchLog := [] }).fetchLog.count
      (projectUrl "adbison")) = 2 := by
  decide

/-- C7 amended: sequential memoization holds.  A call that finds the
cache empty performs exactly one build — one fetch per known folder
identifier, in enumeration order — caches the resulting catalog, and
every LATER call (issued after that call completed, with any load
environment and timestamp) returns the identical cached catalog without
touching the network; but calls that overlap the first build may each
run a build of their own. -/
theorem loadProjects_memoized_sequential (load : String → Option Project)
    (ts : String) (st : ApiState) (h : st.cachedProjects = none) :
    (loadProjectsCall load ts st).2.fetchLog = st.fetchLog ++ buildUrls ∧
    (loadProjectsCall load ts st).1 = buildCatalog load ts ∧
    ∀ (load2 : String → Option Project) (ts2 : String),
      loadProjectsCall load2 ts2 (loadProjectsCall load ts st).2 =
        ((loadProjectsCall load ts st).1, (loadProjectsCall load ts st).2) := by
  refine ⟨?_, ?_, ?_⟩
  · simp [loadProjectsCall, h, buildPhase]
  · simp [loadProjectsCall, h, buildPhase]
  · intro load2 ts2
    simp [loadProjectsCall, h, buildPhase]

theorem loadProjects_memoized_sequential_witness :
    (loadProjectsCall (fun _ => none) "t"
        { cachedProjects := none, fetchLog := [] }).2.fetchLog
      = [] ++ buildUrls :=
  (loadProjects_memoized_sequential (fun _ => none) "t"
    { cachedProjects := none, fetchLog := [] } rfl).1

/-! ### Claim C8: link store memoization -/

/-- C8 counterexample: a failed fetch does not populate `cachedLinks`,
so a second call after a failure fetches `/data/links.json` again — two
fetches in one process lifetime, refuting the claim that the resource
is fetched at most once per process lifetime. -/
theorem loadLinks_refetch_after_failure :
    ((loadLinksCall .err
        (loadLinksCall .err
          { cachedLinks := Json.null, fetchCount := 0 }).2).2).fetchCount
      = 2 := by
  rfl

/-- C8 amended: `loadLinks` memoizes a successful fetch of a TRUTHY
parsed document (the links document is an object, hence truthy): the
value is assigned to `cachedLinks` and every call finding a truthy
cache returns the cached object without fetching.  A non-ok response or
a thrown error yields the empty-shaped `{social: {}, metadata: {}}`
document without touching the cache, and a successfully fetched FALSY
document (`null`, `false`, `0`, `""`) is stored but fails the
truthiness cache check, so in both cases a later call fetches the
resource again. -/
theorem loadLinks_memoization (st : LinksState)
    (h : jsonTruthy st.cachedLinks = false) :
    (∀ d, loadLinksCall (.ok d) st =
      (d, { cachedLinks := d, fetchCount := st.fetchCount + 1 })) ∧
    (∀ (d : Json) (n : Nat) (env : JsonFetch), jsonTruthy d = true →
      loadLinksCall env { cachedLinks := d, fetchCount := n } =
        (d, { cachedLinks := d, fetchCount := n })) ∧
    (∀ (d d2 : Json) (n : Nat), jsonTruthy d = false →
      loadLinksCall (.ok d2) { cachedLinks := d, fetchCount := n } =
        (d2, { cachedLinks := d2, fetchCount := n + 1 })) ∧
    loadLinksCall .notOk st =
      (emptyLinksDoc,
        { cachedLinks := st.cachedLinks, fetchCount := st.fetchCount + 1 }) ∧
    loadLinksCall .err st =
      (emptyLinksDoc,
        { cachedLinks := st.cachedLinks, fetchCount := st.fetchCount + 1 }) := by
  refine ⟨?_, ?_, ?_, ?_, ?_⟩
  · intro d
    simp [loadLinksCall, h]
  · intro d n env hd
    simp [loadLinksCall, hd]
  · intro d d2 n hd
    simp [loadLinksCall, hd]
  · simp [loadLinksCall, h]
  · simp [loadLinksCall, h]

theorem loadLinks_memoization_witness :
    loadLinksCall (.ok emptyLinksDoc) { cachedLinks := Json.null, fetchCount := 0 } =
      (emptyLinksDoc, { cachedLinks := emptyLinksDoc, fetchCount := 1 }) :=
  (loadLinks_memoization { cachedLinks := Json.null, fetchCount := 0 } rfl).1
    emptyLinksDoc

end Portfolio
